import Mathlib

/-!
Verification of the Arch Linux installer script (`main.py`): a shallow
embedding of the partition-layout planner (`Partitioning`) and of the
interactive configuration wizard (`InstallerTextWizard`), together with
theorems settling the specification claims.

Modelling conventions:
* Python `int` is modelled as `Int`; Python `float` arithmetic in the size
  parser is idealised as exact rational arithmetic (`ℚ`), with truncation
  toward zero written as `Int.floor` (all values involved are nonnegative).
* Python values flowing through the wizard's `ask` (which can produce a
  `bool`, a `str` or an `int`) are modelled by `PyVal`.  Crucially, Python's
  `isinstance(x, int)` is `True` for `bool` values, since `bool` is a
  subclass of `int`; `PyVal.isInt` reproduces this.
* Interactive input is modelled as a finite list of strings (one entry per
  `input()` call).  A run that would keep prompting past the end of the list
  yields `Res.exhausted`; an uncaught Python `TypeError`/`IndexError` yields
  `Res.crashed`.
* External collaborators (disk-size query, device listing, timezone catalog)
  are parameters; the side-effecting subprocess/file operations are recorded
  as `Action` values in the order the code issues them.
-/

set_option autoImplicit false

namespace ArchInstall

/-! ## Python string primitives (ASCII fragment) -/

/-- Whitespace characters recognised by Python's `str.strip()` (ASCII part). -/
def pyIsSpace (c : Char) : Bool :=
  c == ' ' || c == '\t' || c == '\n' || c == '\x0b' || c == '\x0c' || c == '\r'

def pyStripList (l : List Char) : List Char :=
  ((l.dropWhile pyIsSpace).reverse.dropWhile pyIsSpace).reverse

/-- Python `str.strip()`. -/
def pyStrip (s : String) : String := String.mk (pyStripList s.data)

/-- Python `str.lower()` on one character (ASCII letters; other characters,
including every character whose lowercase form is itself, are unchanged). -/
def pyCharLower (c : Char) : Char :=
  match c with
  | 'A' => 'a' | 'B' => 'b' | 'C' => 'c' | 'D' => 'd' | 'E' => 'e' | 'F' => 'f'
  | 'G' => 'g' | 'H' => 'h' | 'I' => 'i' | 'J' => 'j' | 'K' => 'k' | 'L' => 'l'
  | 'M' => 'm' | 'N' => 'n' | 'O' => 'o' | 'P' => 'p' | 'Q' => 'q' | 'R' => 'r'
  | 'S' => 's' | 'T' => 't' | 'U' => 'u' | 'V' => 'v' | 'W' => 'w' | 'X' => 'x'
  | 'Y' => 'y' | 'Z' => 'z'
  | _ => c

/-- Python `str.upper()` on one character (ASCII letters). -/
def pyCharUpper (c : Char) : Char :=
  match c with
  | 'a' => 'A' | 'b' => 'B' | 'c' => 'C' | 'd' => 'D' | 'e' => 'E' | 'f' => 'F'
  | 'g' => 'G' | 'h' => 'H' | 'i' => 'I' | 'j' => 'J' | 'k' => 'K' | 'l' => 'L'
  | 'm' => 'M' | 'n' => 'N' | 'o' => 'O' | 'p' => 'P' | 'q' => 'Q' | 'r' => 'R'
  | 's' => 'S' | 't' => 'T' | 'u' => 'U' | 'v' => 'V' | 'w' => 'W' | 'x' => 'X'
  | 'y' => 'Y' | 'z' => 'Z'
  | _ => c

/-- Python `str.lower()`. -/
def pyLower (s : String) : String := String.mk (s.data.map pyCharLower)

/-- Python `str.upper()`. -/
def pyUpper (s : String) : String := String.mk (s.data.map pyCharUpper)

/-- Python `str.startswith(pre)`. -/
def pyStartswith (s pre : String) : Bool := pre.data.isPrefixOf s.data

/-- Python substring containment `needle in hay`. -/
def pyContains (hay needle : String) : Bool :=
  hay.data.tails.any (fun t => needle.data.isPrefixOf t)

/-- Split a character list at every whitespace character (keeping empty
pieces). -/
def splitAtSpaces (l : List Char) : List (List Char) :=
  l.foldr
    (fun c acc =>
      if pyIsSpace c then [] :: acc
      else
        match acc with
        | [] => [[c]]
        | w :: ws => (c :: w) :: ws)
    [[]]

/-- Python `str.split()` with no argument: split on whitespace runs,
dropping empty pieces. -/
def pySplit (s : String) : List String :=
  ((splitAtSpaces s.data).filter (fun w => ¬ w.isEmpty)).map String.mk

/-- Python `str.isalnum()`: nonempty and every character alphanumeric
(ASCII fragment). -/
def pyIsAlnum (s : String) : Bool :=
  ¬ s.data.isEmpty && s.data.all Char.isAlphanum

/-- Value of a digit string, most significant digit first. -/
def digitsVal (l : List Char) : Nat :=
  l.foldl (fun acc c => acc * 10 + (c.toNat - 48)) 0

/-- Python `int(text)`: strip whitespace, optional sign, then digits with
single underscores allowed between digits. -/
def pyInt? (s : String) : Option Int :=
  let t := pyStripList s.data
  let signAndDigits : Int × List Char :=
    match t with
    | '+' :: r => (1, r)
    | '-' :: r => (-1, r)
    | l => (1, l)
  let parts := signAndDigits.2.splitOn '_'
  if parts.all (fun p => ¬ p.isEmpty && p.all Char.isDigit) && ¬ signAndDigits.2.isEmpty
  then some (signAndDigits.1 * (digitsVal (signAndDigits.2.filter (fun c => c ≠ '_')) : Int))
  else none

/-! ## Python runtime values produced by `ask` validators -/

/-- The values a `check` callback handed to `InstallerTextWizard.ask` can
return in this program: `True`/`False`, a string, or an `int`. -/
inductive PyVal where
  | pyBool (b : Bool)
  | pyStr (s : String)
  | pyInt (n : Int)
deriving DecidableEq, Repr

/-- Python `isinstance(v, str)`. -/
def PyVal.isStr : PyVal → Bool
  | .pyStr _ => true
  | _ => false

/-- Python `isinstance(v, int)`.  `bool` is a subclass of `int` in Python,
so `isinstance(False, int)` is `True`. -/
def PyVal.isInt : PyVal → Bool
  | .pyInt _ => true
  | .pyBool _ => true
  | .pyStr _ => false

/-- Python truthiness of a `PyVal`. -/
def PyVal.truthy : PyVal → Bool
  | .pyBool b => b
  | .pyInt n => decide (n ≠ 0)
  | .pyStr s => ¬ s.isEmpty

/-- Python integer coercion of a `PyVal` as used in arithmetic and
comparisons (`False` behaves as `0`, `True` as `1`); strings do not coerce. -/
def PyVal.toInt? : PyVal → Option Int
  | .pyBool b => some (if b then 1 else 0)
  | .pyInt n => some n
  | .pyStr _ => none

/-! ## The partition layout planner (`class Partitioning`) -/

def BOOT_SIZE : Int := 512
def SWAP_SIZE : Int := 1024

structure Partitioning where
  device : String
  root_partition_size : Int
  total_disk_size : Int
  remaining_size : Int
deriving DecidableEq, Repr

/-- Source: `has_separate_home_partition` property,
`self.root_partition_size > 0`. -/
def Partitioning.has_separate_home_partition (p : Partitioning) : Bool :=
  decide (0 < p.root_partition_size)

/-- Source: `Partitioning.__init__`.  `total_disk_size` is the value
returned by the `lsblk` disk-size query collaborator (`get_disk_size`),
supplied here as a parameter. -/
def Partitioning.init (device : String) (root_partition_size : Int)
    (total_disk_size : Int) : Partitioning :=
  let base := total_disk_size - (BOOT_SIZE + SWAP_SIZE)
  { device := device
    root_partition_size := root_partition_size
    total_disk_size := total_disk_size
    remaining_size := if 0 < root_partition_size then base - root_partition_size else base }

/-- One side-effecting collaborator invocation issued by the program,
in program order. -/
inductive Action where
  | parted_mklabel (device : String)
  | parted_mkpart (device fstype : String) (start size : Int)
  | format (partition fstype : String)
  | mount (src dst : String)
  | mkdirp (path : String)
  | swapon (dev : String)
  | pacstrap
  | genfstab
  | write_hostname (hostname : PyVal)
  | useradd (username : PyVal)
  | chpasswd (username password : PyVal)
  | edit_sudoers
  | lock_root
  | make_hosts
  | set_time (timezone : String)
  | locale_gen
  | bootctl_install
  | write_loader_config
  | write_boot_entry (device : String)
  | network_setup
  | pacman_install (packages : List String)
  | run_script (url : String)
deriving DecidableEq, Repr

/-- Source: `Partitioning.create_partitions(root_size, home_size=None)`.
Note the two distinct guards in the source: the home `mkpart` is issued when
`home_size is not None`, while the `p4` format is issued when `home_size`
is truthy (not `None` and nonzero). -/
def Partitioning.create_partitions (p : Partitioning) (root_size : Int)
    (home_size : Option Int) : List Action :=
  [Action.parted_mklabel p.device,
   Action.parted_mkpart p.device "fat32" 0 BOOT_SIZE,
   Action.parted_mkpart p.device "linux-swap" BOOT_SIZE SWAP_SIZE,
   Action.parted_mkpart p.device "ext4" (BOOT_SIZE + SWAP_SIZE) root_size]
  ++ (match home_size with
      | some hs => [Action.parted_mkpart p.device "ext4" (BOOT_SIZE + SWAP_SIZE + root_size) hs]
      | none => [])
  ++ [Action.format (p.device ++ "p1") "fat32",
      Action.format (p.device ++ "p2") "swap",
      Action.format (p.device ++ "p3") "ext4"]
  ++ (match home_size with
      | some hs => if hs ≠ 0 then [Action.format (p.device ++ "p4") "ext4"] else []
      | none => [])

/-- Source: `Partitioning.apply()`.  Raising `ValueError` is modelled as
`Except.error` carrying the message; the returned list is the sequence of
partition create/format operations issued.  The validation happens before
any operation is issued, exactly as in the source. -/
def Partitioning.apply (p : Partitioning) : Except String (List Action) :=
  if p.root_partition_size ≠ 0 ∧ p.remaining_size ≤ p.root_partition_size then
    Except.error "Root partition size is too large for the available space."
  else
    let root_and_home_size :=
      if ¬ p.has_separate_home_partition then p.remaining_size else p.root_partition_size
    if p.has_separate_home_partition then
      Except.ok (p.create_partitions root_and_home_size
        (some (p.remaining_size - p.root_partition_size)))
    else
      Except.ok (p.create_partitions root_and_home_size none)

/-- Source: `Partitioning.mount()` as an action trace. -/
def Partitioning.mountActions (p : Partitioning) : List Action :=
  [Action.mount (p.device ++ "p3") "/mnt"]
  ++ (if p.has_separate_home_partition then
        [Action.mkdirp "/mnt/home", Action.mount (p.device ++ "p4") "/mnt/home"]
      else [])
  ++ [Action.mkdirp "/mnt/boot",
      Action.mount (p.device ++ "p1") "/mnt/boot",
      Action.swapon (p.device ++ "p2")]

/-- The `(fstype, start, size)` triples of the `mkpart` operations of an
`apply` result (the computed partition layout), if `apply` succeeded. -/
def mkpartOf : Action → Option (String × Int × Int)
  | .parted_mkpart _ fstype start size => some (fstype, start, size)
  | _ => none

def layout? : Except String (List Action) → Option (List (String × Int × Int))
  | .ok acts => some (acts.filterMap mkpartOf)
  | .error _ => none

/-- The fourth `mkpart` of a successful `apply`: the home partition. -/
def homePart? (r : Except String (List Action)) : Option (String × Int × Int) :=
  match layout? r with
  | some l => l[3]?
  | none => none

/-- Sum of the partition sizes of a successful `apply`. -/
def sumSizes? (r : Except String (List Action)) : Option Int :=
  match layout? r with
  | some l => some ((l.map (fun x => x.2.2)).sum)
  | none => none

/-! ## The interactive wizard (`class InstallerTextWizard`) -/

/-- Result of running a wizard routine against a finite list of operator
input lines: a value together with the unconsumed inputs, or the stream ran
out (`exhausted`), or an uncaught Python exception was raised (`crashed`). -/
inductive Res (α : Type) where
  | ok (a : α) (rest : List String)
  | exhausted
  | crashed
deriving DecidableEq, Repr

/-- Source: `VALID_UNIX = lambda x: x.isalnum() and len(x) > 0`. -/
def VALID_UNIX (x : String) : PyVal :=
  PyVal.pyBool (pyIsAlnum x && decide (0 < x.length))

/-- Source: the password validator `lambda x: bool(x.strip())`. -/
def password_check (x : String) : PyVal :=
  PyVal.pyBool (¬ (pyStrip x).isEmpty)

/-- Source: `InstallerTextWizard.ask(prompt, check)`.  The condition
`result is True or isinstance(result, str) or isinstance(result, int)`
accepts `False` as well, because `isinstance(False, int)` is `True`. -/
def ask (check : Option (String → PyVal)) : List String → Res PyVal
  | [] => Res.exhausted
  | value :: rest =>
    match check with
    | none => Res.ok (PyVal.pyStr value) rest
    | some c =>
      let result := c value
      if result = PyVal.pyBool true || result.isStr || result.isInt then
        Res.ok (if result = PyVal.pyBool true then PyVal.pyStr value else result) rest
      else
        ask check rest

/-- Source: `ask_yn`, `not input(prompt).strip().lower().startswith('n')`. -/
def askYnVal (s : String) : Bool :=
  ! pyStartswith (pyLower (pyStrip s)) "n"

def ask_yn : List String → Res Bool
  | [] => Res.exhausted
  | value :: rest => Res.ok (askYnVal value) rest

/-- Source: the regular expression match of `ask_size`'s `size_filter`,
`^(\d+(?:\.\d+)?)([MG]?)$`: a maximal nonempty run of digits, optionally a
dot followed by a maximal nonempty run of digits, optionally a single unit
character `M` or `G`, and nothing else.  Returns the captured pieces. -/
def sizeMatch (l : List Char) : Option (List Char × Option (List Char) × Option Char) :=
  let d := l.takeWhile Char.isDigit
  let r := l.dropWhile Char.isDigit
  if d.isEmpty then none
  else if r = [] then some (d, none, none)
  else if r = ['M'] then some (d, none, some 'M')
  else if r = ['G'] then some (d, none, some 'G')
  else if r.head? = some '.' then
    let r2 := r.tail
    let f := r2.takeWhile Char.isDigit
    let r3 := r2.dropWhile Char.isDigit
    if f.isEmpty then none
    else if r3 = [] then some (d, some f, none)
    else if r3 = ['M'] then some (d, some f, some 'M')
    else if r3 = ['G'] then some (d, some f, some 'G')
    else none
  else none

/-- Numeric value of the matched digits, `float(num)` idealised as an exact
rational. -/
def numVal (d : List Char) (f : Option (List Char)) : ℚ :=
  match f with
  | none => (digitsVal d : ℚ)
  | some fr => (digitsVal d : ℚ) + (digitsVal fr : ℚ) / (10 : ℚ) ^ fr.length

/-- The integer megabyte value of a size text (already stripped and
uppercased): `int(num * 1024)` for unit `G` else `int(num)`; truncation
toward zero of a nonnegative value is the floor. -/
def sizeValue (t : List Char) : Option Int :=
  match sizeMatch t with
  | none => none
  | some (d, f, u) =>
    some (if u = some 'G' then ⌊numVal d f * 1024⌋ else ⌊numVal d f⌋)

/-- Source: `size_filter` inside `ask_size`: strip, uppercase, match the
regex; on failure return `False`, otherwise the converted integer. -/
def size_filter (value : String) : PyVal :=
  match sizeValue (pyUpper (pyStrip value)).data with
  | some n => PyVal.pyInt n
  | none => PyVal.pyBool false

/-- Source: `ask_size`, which is `ask` with `size_filter` as the check. -/
def ask_size (inputs : List String) : Res PyVal :=
  ask (some size_filter) inputs

/-! ### Spec-side comparison definitions for the size grammar (claim C10)

An independent rendering of the specification's words for the size parser:
"trim whitespace, uppercase; must match `^(\d+(\.\d+)?)([MG]?)$`; no unit
means megabytes; value = numeric-part × 1024 if unit is G else numeric-part,
truncated toward zero".  It is written in a deliberately different style
from `sizeMatch` — the optional unit is read off the end of the input, and
the numeric part is split at its first dot — so that agreement with the
source translation is a meaningful theorem. -/

/-- Split a character list at its first `'.'`, if any. -/
def dotSplit : List Char → List Char × Option (List Char)
  | [] => ([], none)
  | c :: rest =>
    if c = '.' then ([], some rest)
    else
      let p := dotSplit rest
      (c :: p.1, p.2)

/-- The numeric part of the grammar, `\d+(\.\d+)?`, valued as an exact
rational. -/
def specNum? (l : List Char) : Option ℚ :=
  match dotSplit l with
  | (d, none) =>
    if !d.isEmpty && d.all Char.isDigit then some ((digitsVal d : ℚ)) else none
  | (d, some f) =>
    if !d.isEmpty && d.all Char.isDigit && (!f.isEmpty && f.all Char.isDigit)
    then some ((digitsVal d : ℚ) + (digitsVal f : ℚ) / (10 : ℚ) ^ f.length)
    else none

/-- The whole grammar on an already stripped and uppercased text: an
optional final unit character, then the numeric part; the value is
`⌊num × 1024⌋` for `G`, else `⌊num⌋`. -/
def specSizeCore (t : List Char) : Option Int :=
  if t.getLast? = some 'G' then
    match specNum? t.dropLast with
    | some q => some ⌊q * 1024⌋
    | none => none
  else if t.getLast? = some 'M' then
    match specNum? t.dropLast with
    | some q => some ⌊q⌋
    | none => none
  else
    match specNum? t with
    | some q => some ⌊q⌋
    | none => none

/-- Spec-side size parser: strip, uppercase, apply the grammar. -/
def specSizeParse (s : String) : Option Int :=
  specSizeCore (pyUpper (pyStrip s)).data

/-- The numeric part of the regex in relational form: `l` consists of the
digit run `d`, optionally followed by a dot and the digit run of `f`. -/
def NumShape (l d : List Char) (f : Option (List Char)) : Prop :=
  match f with
  | none => l = d ∧ d ≠ [] ∧ ∀ c ∈ d, c.isDigit
  | some fr =>
      l = d ++ '.' :: fr ∧ d ≠ [] ∧ fr ≠ [] ∧ (∀ c ∈ d, c.isDigit) ∧ ∀ c ∈ fr, c.isDigit

/-- The full regex in relational form: the numeric shape, optionally
followed by a single unit character `M` or `G`. -/
def SizeShape (l d : List Char) (f : Option (List Char)) (u : Option Char) : Prop :=
  match u with
  | none => NumShape l d f
  | some c => (c = 'M' ∨ c = 'G') ∧ ∃ core, l = core ++ [c] ∧ NumShape core d f

/-- The collection handed to `choose`: `collect_partitioning` passes a
Python `list`, while `collect_general` passes the `set` returned by
`zoneinfo.available_timezones()` (held here with its iteration order).
Subscripting a `set` raises `TypeError`. -/
inductive PyStrColl where
  | pyList (items : List String)
  | pySet (items : List String)
deriving DecidableEq, Repr

def PyStrColl.items : PyStrColl → List String
  | .pyList l => l
  | .pySet l => l

/-- Source: `InstallerTextWizard.choose(prompt, items)`.  A `/`-prefixed
input filters the current pool case-insensitively and recurses on the
filtered pool when it is non-empty; a numeric input in range returns
`items[index]`, which works on a `list` but raises `TypeError` on a `set`;
out-of-range and malformed inputs reprompt on the unchanged pool. -/
def choose : PyStrColl → List String → Res String
  | _, [] => Res.exhausted
  | coll, choice :: rest =>
    if pyStartswith choice "/" then
      let query := pyLower (String.mk (choice.data.drop 1))
      let ms := coll.items.filter (fun item => pyContains (pyLower item) query)
      if ms.isEmpty then
        choose coll rest
      else
        choose (PyStrColl.pyList ms) rest
    else
      match pyInt? choice with
      | none => choose coll rest
      | some n =>
        match coll with
        | .pyList items =>
          if h : 0 ≤ n - 1 ∧ n - 1 < (items.length : Int) then
            Res.ok (items.get ⟨(n - 1).toNat, by omega⟩) rest
          else
            choose (PyStrColl.pyList items) rest
        | .pySet items =>
          if 0 ≤ n - 1 ∧ n - 1 < (items.length : Int) then
            Res.crashed
          else
            choose (PyStrColl.pySet items) rest

/-! ## Configuration records and the wizard flow -/

/-- Source: `class User`.  The username and password are whatever `ask`
returned; with the validators of this program that is either the entered
string (validator returned `True`) or Python `False`. -/
structure User where
  username : PyVal
  password : PyVal
  sudo_flag : Bool
deriving DecidableEq, Repr

/-- Source: `class General`. -/
structure General where
  timezone : String
  hostname : PyVal
  users : List User
deriving DecidableEq, Repr

/-- Source: `class PostInstall` (only its data; the wizard always builds it
with empty lists). -/
structure PostInstall where
  packages : List String
  scripts : List String
deriving DecidableEq, Repr

/-- Source: `class Installer`. -/
structure Installer where
  general : General
  partitioning : Partitioning
  post_install : PostInstall
deriving DecidableEq, Repr

/-- Source: `InstallerTextWizard.collect_user`: ask a username with
`VALID_UNIX`, return `None` on a falsy result, otherwise ask the password
and the sudo yes/no question. -/
def collect_user (inputs : List String) : Res (Option User) :=
  match ask (some VALID_UNIX) inputs with
  | .ok username rest =>
    if ¬ username.truthy then Res.ok none rest
    else
      match ask (some password_check) rest with
      | .ok password rest2 =>
        match ask_yn rest2 with
        | .ok sd rest3 =>
            Res.ok (some { username := username, password := password, sudo_flag := sd }) rest3
        | .exhausted => Res.exhausted
        | .crashed => Res.crashed
      | .exhausted => Res.exhausted
      | .crashed => Res.crashed
  | .exhausted => Res.exhausted
  | .crashed => Res.crashed

def collect_users_loop : Nat → List String → Res (List User)
  | 0, _ => Res.exhausted
  | fuel + 1, inputs =>
    match collect_user inputs with
    | .ok none rest => Res.ok [] rest
    | .ok (some u) rest =>
      match collect_users_loop fuel rest with
      | .ok us rest2 => Res.ok (u :: us) rest2
      | .exhausted => Res.exhausted
      | .crashed => Res.crashed
    | .exhausted => Res.exhausted
    | .crashed => Res.crashed

/-- Source: `collect_users`.  The `while True` loop is run on a fuel of
`length + 1` iterations: every iteration reads at least one input line, so
on a finite input list the fuel can only run out together with the list
itself (yielding `exhausted` either way). -/
def collect_users (inputs : List String) : Res (List User) :=
  collect_users_loop (inputs.length + 1) inputs

/-- Source: `review_general`.  `Res.ok none` means the operator rejected
the review, which in the source re-runs `collect_general`. -/
def review_general (hostname : PyVal) (timezone : String) (users : List User)
    (inputs : List String) : Res (Option General) :=
  match ask_yn inputs with
  | .ok true rest =>
      Res.ok (some { timezone := timezone, hostname := hostname, users := users }) rest
  | .ok false rest => Res.ok none rest
  | .exhausted => Res.exhausted
  | .crashed => Res.crashed

def collect_general_loop (tzs : List String) : Nat → List String → Res General
  | 0, _ => Res.exhausted
  | fuel + 1, inputs =>
    match ask (some VALID_UNIX) inputs with
    | .ok hostname rest1 =>
      match choose (PyStrColl.pySet tzs) rest1 with
      | .ok timezone rest2 =>
        match collect_users rest2 with
        | .ok users rest3 =>
          match review_general hostname timezone users rest3 with
          | .ok (some g) rest4 => Res.ok g rest4
          | .ok none rest4 => collect_general_loop tzs fuel rest4
          | .exhausted => Res.exhausted
          | .crashed => Res.crashed
        | .exhausted => Res.exhausted
        | .crashed => Res.crashed
      | .exhausted => Res.exhausted
      | .crashed => Res.crashed
    | .exhausted => Res.exhausted
    | .crashed => Res.crashed

/-- Source: `collect_general`: hostname via `VALID_UNIX`, timezone via
`choose` over `zoneinfo.available_timezones()` — which is a Python `set`,
passed here as `PyStrColl.pySet` over the catalog `tzs` — then the users
loop, then the general review (whose rejection restarts collection, driven
by the same fuel convention as `collect_users`). -/
def collect_general (tzs : List String) (inputs : List String) : Res General :=
  collect_general_loop tzs (inputs.length + 1) inputs

/-- Source: `review_partitioning`.  On acceptance the `Partitioning` is
constructed, which performs the `lsblk` disk-size query (`diskSize`). -/
def review_partitioning (diskSize : String → Int) (device : String)
    (root_partition_size : Int) (inputs : List String) : Res (Option Partitioning) :=
  match ask_yn inputs with
  | .ok true rest =>
      Res.ok (some (Partitioning.init device root_partition_size (diskSize device))) rest
  | .ok false rest => Res.ok none rest
  | .exhausted => Res.exhausted
  | .crashed => Res.crashed

def collect_partitioning_loop (devices : List String) (diskSize : String → Int) :
    Nat → List String → Res Partitioning
  | 0, _ => Res.exhausted
  | fuel + 1, inputs =>
    match choose (PyStrColl.pyList devices) inputs with
    | .ok chosen rest1 =>
      match pySplit chosen with
      | [] => Res.crashed
      | w :: _ =>
        match ask_yn rest1 with
        | .ok false rest2 =>
          match review_partitioning diskSize ("/dev/" ++ w) 0 rest2 with
          | .ok (some p) rest3 => Res.ok p rest3
          | .ok none rest3 => collect_partitioning_loop devices diskSize fuel rest3
          | .exhausted => Res.exhausted
          | .crashed => Res.crashed
        | .ok true rest2 =>
          match ask_size rest2 with
          | .ok rootVal rest3 =>
            match rootVal.toInt? with
            | some root =>
              match review_partitioning diskSize ("/dev/" ++ w) root rest3 with
              | .ok (some p) rest4 => Res.ok p rest4
              | .ok none rest4 => collect_partitioning_loop devices diskSize fuel rest4
              | .exhausted => Res.exhausted
              | .crashed => Res.crashed
            | none => Res.crashed
          | .exhausted => Res.exhausted
          | .crashed => Res.crashed
        | .exhausted => Res.exhausted
        | .crashed => Res.crashed
    | .exhausted => Res.exhausted
    | .crashed => Res.crashed

/-- Source: `collect_partitioning`: choose a device line from the `lsblk`
listing (`devices`, a Python `list`), take the first whitespace-separated
word (`chosen.split()[0]`; an all-whitespace line would raise `IndexError`,
modelled as `crashed`), ask about a separate home partition, possibly ask a
root size, and review.  A `rootVal` that is not coercible to `int` cannot
occur, since `size_filter` only produces `int` or `False`. -/
def collect_partitioning (devices : List String) (diskSize : String → Int)
    (inputs : List String) : Res Partitioning :=
  collect_partitioning_loop devices diskSize (inputs.length + 1) inputs

/-- Result of `confirm_install`: proceed with the built `Installer`, or the
process terminated via `sys.exit('Installation aborted')`. -/
inductive ConfirmRes where
  | proceed (i : Installer) (rest : List String)
  | abortExit
  | exhausted
deriving DecidableEq, Repr

/-- Source: `confirm_install`: two yes/no questions; declining either one
exits the process with the abort message before anything is installed. -/
def confirm_install (general : General) (partitioning : Partitioning) :
    List String → ConfirmRes
  | [] => ConfirmRes.exhausted
  | a1 :: rest =>
    if ¬ askYnVal a1 then ConfirmRes.abortExit
    else
      match rest with
      | [] => ConfirmRes.exhausted
      | a2 :: rest2 =>
        if ¬ askYnVal a2 then ConfirmRes.abortExit
        else ConfirmRes.proceed
          { general := general, partitioning := partitioning,
            post_install := { packages := [], scripts := [] } } rest2

/-- Source: `PostInstall.install` as an action trace: one package
installation, then each script is attempted (per-script failures are caught
in the source, so every script is invoked). -/
def PostInstall.installActions (pi : PostInstall) : List Action :=
  Action.pacman_install pi.packages :: pi.scripts.map Action.run_script

/-- Source: `Installer.install` as an action trace, in source order.  If
`Partitioning.apply` raises, the `ValueError` propagates (no actions were
issued, since the raise precedes every partition operation). -/
def Installer.install (i : Installer) : Except String (List Action) :=
  match i.partitioning.apply with
  | .error m => Except.error m
  | .ok partActs =>
    Except.ok (partActs
      ++ i.partitioning.mountActions
      ++ [Action.pacstrap, Action.genfstab, Action.write_hostname i.general.hostname]
      ++ (i.general.users.map
          (fun u => [Action.useradd u.username, Action.chpasswd u.username u.password])).flatten
      ++ [Action.edit_sudoers, Action.lock_root, Action.make_hosts,
          Action.set_time i.general.timezone, Action.locale_gen,
          Action.bootctl_install, Action.write_loader_config,
          Action.write_boot_entry i.partitioning.device, Action.network_setup]
      ++ i.post_install.installActions)

inductive RunOutcome where
  | completed
  | aborted (msg : String)
  | installError (msg : String)
  | exhausted
  | crashed
deriving DecidableEq, Repr

/-- Source: `InstallerTextWizard.run` (and `__main__`): collect the general
settings, collect the partitioning, confirm, then install.  The second
component is the list of side-effecting collaborator invocations issued
during the whole run; the collection and confirmation phases only read
(prompts, `lsblk` queries), so actions arise solely from
`Installer.install`. -/
def run (tzs devices : List String) (diskSize : String → Int)
    (inputs : List String) : RunOutcome × List Action :=
  match collect_general tzs inputs with
  | .ok general r1 =>
    match collect_partitioning devices diskSize r1 with
    | .ok partitioning r2 =>
      match confirm_install general partitioning r2 with
      | .proceed installer _rest =>
        match installer.install with
        | .ok acts => (RunOutcome.completed, acts)
        | .error m => (RunOutcome.installError m, [])
      | .abortExit => (RunOutcome.aborted "Installation aborted", [])
      | .exhausted => (RunOutcome.exhausted, [])
    | .exhausted => (RunOutcome.exhausted, [])
    | .crashed => (RunOutcome.crashed, [])
  | .exhausted => (RunOutcome.exhausted, [])
  | .crashed => (RunOutcome.crashed, [])

theorem Partitioning.remaining_size_init (device : String) (root total : Int) :
    (Partitioning.init device root total).remaining_size =
      if 0 < root then total - (BOOT_SIZE + SWAP_SIZE) - root
      else total - (BOOT_SIZE + SWAP_SIZE) := rfl

theorem Partitioning.root_partition_size_init (device : String) (root total : Int) :
    (Partitioning.init device root total).root_partition_size = root := rfl

theorem Partitioning.apply_eq_error_iff (p : Partitioning) :
    (p.apply = Except.error "Root partition size is too large for the available space.")
      ↔ p.root_partition_size ≠ 0 ∧ p.remaining_size ≤ p.root_partition_size := by
  unfold Partitioning.apply
  split_ifs with hc
  · simpa using hc
  all_goals simp [hc]

/-- Claim C1: the claim states that, for a planner accepted by `apply`'s
validation, the home partition size equals the planner's remaining-space
field (`budget - rootSizeMB`) and that home spans up to the end of the disk;
in particular `Planner(total=40960, root=10240)` should yield home size
`29184` on `[11776, 40960)`.  This theorem evaluates the code on exactly that
input: the remaining-space field is indeed `29184`, but `apply` subtracts the
root size a second time (`home_size = self.remaining_size -
self.root_partition_size`), producing home size `18944` on `[11776, 30720)`
and a layout totalling `30720` of the `40960` MB disk.  The code contradicts
the claim (and its own wizard prompt, which promises the rest of the disk to
`/home`). -/
theorem c1_home_size_double_subtraction :
    (Partitioning.init "/dev/sda" 10240 40960).remaining_size = 29184
    ∧ homePart? (Partitioning.init "/dev/sda" 10240 40960).apply
        = some ("ext4", 11776, 18944)
    ∧ sumSizes? (Partitioning.init "/dev/sda" 10240 40960).apply = some 30720 :=
  ⟨rfl, rfl, rfl⟩

/-- Claim C2: the claim states that for every `total > 1536` and every
`root ∈ [0, total-1536)` the layout produced by `apply` has sizes summing
exactly to `total`.  This theorem evaluates the code at two such inputs:
with `total = 12288, root = 1024` the layout sums to `11264 ≠ 12288`
(1024 MB of the disk are left unallocated), and with `total = 12288,
root = 5376 ∈ [0, 10752)` `apply` raises the sizing `ValueError` instead of
producing a layout at all. -/
theorem c2_layout_sum_falls_short :
    sumSizes? (Partitioning.init "/dev/sda" 1024 12288).apply = some 11264
    ∧ (Partitioning.init "/dev/sda" 5376 12288).apply
        = Except.error "Root partition size is too large for the available space."
    ∧ layout? (Partitioning.init "/dev/sda" 1024 12288).apply
        = some [("fat32", 0, 512), ("linux-swap", 512, 1024),
                ("ext4", 1536, 1024), ("ext4", 2560, 8704)] :=
  ⟨rfl, rfl, rfl⟩

/-- Claim C4: `apply()` raises the sizing error exactly when
`rootSizeMB > 0` and `rootSizeMB ≥` the remaining-space field computed at
construction, which for a positive root size is `budget - rootSizeMB`
(where `budget = total - BOOT - SWAP`), not the full pre-home budget; the
error is raised before any partition operation is issued (an erroring
`apply` issues no actions); and `Planner(total=20480, root=15000)` fails
with exactly this error. -/
theorem c4_apply_validation (device : String) (total root : Int) (h : 0 ≤ root) :
    ((Partitioning.init device root total).apply
        = Except.error "Root partition size is too large for the available space."
      ↔ 0 < root ∧ total - (BOOT_SIZE + SWAP_SIZE) - root ≤ root)
    ∧ (0 < root →
        (Partitioning.init device root total).remaining_size
          = total - (BOOT_SIZE + SWAP_SIZE) - root)
    ∧ (Partitioning.init device 15000 20480).apply
        = Except.error "Root partition size is too large for the available space." := by
  refine ⟨?_, ?_, rfl⟩
  · rw [Partitioning.apply_eq_error_iff, Partitioning.remaining_size_init,
      Partitioning.root_partition_size_init]
    by_cases hr : 0 < root
    · rw [if_pos hr]
      constructor
      · rintro ⟨h1, h2⟩
        exact ⟨hr, h2⟩
      · rintro ⟨h1, h2⟩
        exact ⟨by omega, h2⟩
    · have hz : root = 0 := by omega
      subst hz
      simp
  · intro hr
    rw [Partitioning.remaining_size_init, if_pos hr]

/-- Witness for C4 at `device = "/dev/sda"`, `total = 40960`,
`root = 10240`: the validation accepts this planner. -/
theorem c4_apply_validation_witness :
    ((Partitioning.init "/dev/sda" 10240 40960).apply
        = Except.error "Root partition size is too large for the available space."
      ↔ 0 < (10240 : Int) ∧ 40960 - (BOOT_SIZE + SWAP_SIZE) - 10240 ≤ (10240 : Int))
    ∧ (0 < (10240 : Int) →
        (Partitioning.init "/dev/sda" 10240 40960).remaining_size
          = 40960 - (BOOT_SIZE + SWAP_SIZE) - 10240)
    ∧ (Partitioning.init "/dev/sda" 15000 20480).apply
        = Except.error "Root partition size is too large for the available space." :=
  c4_apply_validation "/dev/sda" 40960 10240 (by decide)

/-- Claim C3: the claim states that for each validated prompt (size text,
hostname/username, non-blank password) invalid input is reprompted and an
invalid value is never returned.  This theorem evaluates the code: because
`isinstance(False, int)` is `True` in Python, `ask` returns the validator's
`False` result immediately after a single invalid input instead of
reprompting, for all three validators; the valid follow-up input is left
unread. -/
theorem c3_invalid_input_escapes_ask :
    ask (some VALID_UNIX) ["user name", "bob"] = Res.ok (PyVal.pyBool false) ["bob"]
    ∧ ask_size ["abc", "512"] = Res.ok (PyVal.pyBool false) ["512"]
    ∧ ask (some password_check) ["   ", "hunter2"] = Res.ok (PyVal.pyBool false) ["hunter2"] :=
  ⟨rfl, rfl, rfl⟩

theorem choose_mem (inputs : List String) :
    ∀ (coll : PyStrColl) (s : String) (rest : List String),
      choose coll inputs = Res.ok s rest → s ∈ coll.items := by
  induction inputs with
  | nil =>
    intro coll s rest h
    simp [choose] at h
  | cons choice tl ih =>
    intro coll s rest h
    cases coll with
    | pyList items =>
      simp only [choose] at h
      split at h
      · split at h
        · exact ih (PyStrColl.pyList items) s rest h
        · have hm := ih (PyStrColl.pyList _) s rest h
          simp only [PyStrColl.items] at hm ⊢
          exact List.mem_of_mem_filter hm
      · split at h
        · exact ih (PyStrColl.pyList items) s rest h
        · split at h
          · rw [Res.ok.injEq] at h
            simp only [PyStrColl.items]
            rw [← h.1]
            exact List.get_mem items _ _
          · exact ih (PyStrColl.pyList items) s rest h
    | pySet items =>
      simp only [choose] at h
      split at h
      · split at h
        · exact ih (PyStrColl.pySet items) s rest h
        · have hm := ih (PyStrColl.pyList _) s rest h
          simp only [PyStrColl.items] at hm ⊢
          exact List.mem_of_mem_filter hm
      · split at h
        · exact ih (PyStrColl.pySet items) s rest h
        · split at h
          · cases h
          · exact ih (PyStrColl.pySet items) s rest h

/-- Claim C9: a `/`-prefixed query filters the current pool to the items
containing the query case-insensitively; a non-empty result becomes the new
pool (search compounds), while an empty result leaves the pool unchanged;
the claim's concrete scenario over `["sda 100G", "sdb 50G"]` behaves as
stated; and any item `choose` ever returns belongs to the pool it was
called with. -/
theorem c9_choose_search_semantics :
    choose (PyStrColl.pyList ["sda 100G", "sdb 50G"]) ["/sdb", "1"] = Res.ok "sdb 50G" []
    ∧ choose (PyStrColl.pyList ["sda 100G", "sdb 50G"]) ["/sdb", "/x", "1"]
        = Res.ok "sdb 50G" []
    ∧ (∀ (coll : PyStrColl) (q : String) (rest : List String),
        choose coll (("/" ++ q) :: rest) =
          (if (coll.items.filter (fun item => pyContains (pyLower item) (pyLower q))).isEmpty
           then choose coll rest
           else choose (PyStrColl.pyList
             (coll.items.filter (fun item => pyContains (pyLower item) (pyLower q)))) rest))
    ∧ (∀ (coll : PyStrColl) (inputs : List String) (s : String) (rest : List String),
        choose coll inputs = Res.ok s rest → s ∈ coll.items) := by
  refine ⟨rfl, rfl, ?_, fun coll inputs s rest h => choose_mem inputs coll s rest h⟩
  intro coll q rest
  have hpre : pyStartswith ("/" ++ q) "/" = true := by
    simp [pyStartswith, String.data_append]
  have hdrop : ("/" ++ q).data.drop 1 = q.data := by
    simp [String.data_append]
  simp only [choose, hpre, if_pos, hdrop]

/-- Witness for C9's pool-membership conjunct at a concrete input. -/
theorem c9_choose_search_semantics_witness :
    ("sda 100G" : String) ∈ (PyStrColl.pyList ["sda 100G", "sdb 50G"]).items :=
  c9_choose_search_semantics.2.2.2 (PyStrColl.pyList ["sda 100G", "sdb 50G"])
    ["1"] "sda 100G" [] rfl

/-- Claim C5: the claim states that the user-collection loop terminates
exactly on an empty username and that a non-empty non-alphanumeric username
is reprompted.  This theorem evaluates the code: entering the non-empty,
non-alphanumeric username `"bob smith"` makes `ask` return `False` (see C3),
which is falsy, so `collect_user` returns `None` and the loop terminates —
here cutting off collection even though the valid user `"carol"` follows. -/
theorem c5_invalid_username_terminates_loop :
    collect_user ["bob smith", "bob", "pw", "y"] = Res.ok none ["bob", "pw", "y"]
    ∧ collect_users ["alice", "pw", "y", "bob smith", "carol", "pw2", "y", ""]
        = Res.ok [{ username := PyVal.pyStr "alice", password := PyVal.pyStr "pw",
                    sudo_flag := true }]
            ["carol", "pw2", "y", ""] :=
  ⟨rfl, rfl⟩

/-- Claim C6: the claim states that the timezone is selected by `choose`
over the full catalog and that the index-selection branch never crashes and
returns an element of the pool for every valid numeric input.  This theorem
evaluates the code: `collect_general` passes `zoneinfo.available_timezones()`
— a Python `set` — to `choose`, whose numeric branch evaluates
`items[index]`; subscripting a set raises `TypeError`, so entering the
in-range index `1` at the timezone menu crashes the wizard. -/
theorem c6_timezone_index_selection_crashes :
    choose (PyStrColl.pySet ["America/New_York", "Europe/Paris", "UTC"]) ["1"] = Res.crashed
    ∧ collect_general ["America/New_York", "Europe/Paris", "UTC"] ["myhost", "1"]
        = Res.crashed :=
  ⟨rfl, rfl⟩

/-- Claim C7: if, after the two collection phases succeed, either of the two
`confirm_install` yes/no questions is declined (the first, or the first
accepted and the second declined), the whole run terminates with the
`sys.exit` abort message and the list of side-effecting collaborator
invocations issued during the run is empty: no partition creation,
formatting, mounting, package installation or bootloader step ever ran. -/
theorem c7_decline_aborts_without_actions (tzs devices : List String)
    (diskSize : String → Int) (inputs r1 r2 : List String)
    (general : General) (partitioning : Partitioning)
    (h1 : collect_general tzs inputs = Res.ok general r1)
    (h2 : collect_partitioning devices diskSize r1 = Res.ok partitioning r2)
    (h3 : (∃ a1 rest, r2 = a1 :: rest ∧ askYnVal a1 = false)
        ∨ (∃ a1 a2 rest, r2 = a1 :: a2 :: rest ∧ askYnVal a1 = true ∧ askYnVal a2 = false)) :
    run tzs devices diskSize inputs = (RunOutcome.aborted "Installation aborted", []) := by
  simp only [run, h1, h2]
  rcases h3 with ⟨a1, rest, hr, hd⟩ | ⟨a1, a2, rest, hr, hy, hd⟩
  · subst hr
    simp [confirm_install, hd]
  · subst hr
    simp [confirm_install, hy, hd]

/-- Witness for C7: a complete concrete run (hostname, timezone search and
selection, empty user list, reviews accepted, root size 512M) in which the
first confirmation is accepted, the wipe confirmation is declined, and the
run aborts having issued no actions. -/
theorem c7_decline_aborts_without_actions_witness :
    run ["UTC"] ["sda 40G"] (fun _ => 40960)
      ["myhost", "/utc", "1", "", "y", "1", "y", "512", "y", "y", "n"]
      = (RunOutcome.aborted "Installation aborted", []) :=
  c7_decline_aborts_without_actions ["UTC"] ["sda 40G"] (fun _ => 40960)
    ["myhost", "/utc", "1", "", "y", "1", "y", "512", "y", "y", "n"]
    ["1", "y", "512", "y", "y", "n"] ["y", "n"]
    { timezone := "UTC", hostname := PyVal.pyStr "myhost", users := [] }
    (Partitioning.init "/dev/sda" 512 40960)
    rfl rfl (Or.inr ⟨"y", "n", [], rfl, rfl, rfl⟩)

theorem data_mk (l : List Char) : (String.mk l).data = l := rfl

theorem singleton_isPrefixOf_iff (c : Char) (l : List Char) :
    ([c].isPrefixOf l = true) ↔ l.head? = some c := by
  cases l with
  | nil => simp [List.isPrefixOf]
  | cons a t =>
    simp only [List.isPrefixOf, Bool.and_eq_true, beq_iff_eq, List.head?_cons,
      Option.some.injEq, and_true]
    exact eq_comm

theorem pyCharLower_eq_n_iff (c : Char) : pyCharLower c = 'n' ↔ (c = 'n' ∨ c = 'N') := by
  constructor
  · intro h
    unfold pyCharLower at h
    split at h <;>
      first
        | exact Or.inl h
        | exact Or.inr (by assumption)
        | exact Or.inr rfl
        | exact absurd h (by decide)
  · rintro (rfl | rfl) <;> decide

theorem askYnVal_false_iff (s : String) :
    askYnVal s = false ↔
      ((pyStrip s).data.head? = some 'n' ∨ (pyStrip s).data.head? = some 'N') := by
  have hb : askYnVal s = false ↔ pyStartswith (pyLower (pyStrip s)) "n" = true := by
    unfold askYnVal
    cases pyStartswith (pyLower (pyStrip s)) "n" <;> simp
  rw [hb]
  unfold pyStartswith pyLower
  rw [show ("n" : String).data = ['n'] from rfl, data_mk,
    singleton_isPrefixOf_iff, List.head?_map, Option.map_eq_some']
  constructor
  · rintro ⟨a, ha, hl⟩
    rcases (pyCharLower_eq_n_iff a).mp hl with h1 | h1
    · exact Or.inl (by rw [ha, h1])
    · exact Or.inr (by rw [ha, h1])
  · rintro (h | h)
    · exact ⟨'n', h, rfl⟩
    · exact ⟨'N', h, by decide⟩

/-- Claim C8: `ask_yn` treats any input whose stripped, lowercased form does
not start with `'n'` — including the empty string — as yes; an input
declines precisely when its stripped form starts with `'n'` or `'N'`; and
consequently pressing Enter (empty input) at the second, "this will wipe
everything" confirmation proceeds with the installation. -/
theorem c8_ask_yn_default_yes :
    askYnVal "" = true
    ∧ (∀ s, askYnVal s = false ↔
        ((pyStrip s).data.head? = some 'n' ∨ (pyStrip s).data.head? = some 'N'))
    ∧ (∀ (general : General) (partitioning : Partitioning) (a1 : String)
        (rest : List String), askYnVal a1 = true →
        confirm_install general partitioning (a1 :: "" :: rest)
          = ConfirmRes.proceed
              { general := general, partitioning := partitioning,
                post_install := { packages := [], scripts := [] } } rest) := by
  refine ⟨rfl, askYnVal_false_iff, ?_⟩
  intro general partitioning a1 rest h
  have e1 : confirm_install general partitioning (a1 :: "" :: rest)
      = if ¬ askYnVal a1 then ConfirmRes.abortExit
        else if ¬ askYnVal "" then ConfirmRes.abortExit
        else ConfirmRes.proceed
          { general := general, partitioning := partitioning,
            post_install := { packages := [], scripts := [] } } rest := rfl
  rw [e1, h, show askYnVal "" = true from rfl]
  simp

/-- Witness for C8: declining input `" NO "` is characterised by its
stripped head `'N'`, and answering yes then pressing Enter proceeds. -/
theorem c8_ask_yn_default_yes_witness :
    ((askYnVal " NO " = false) ↔
      ((pyStrip " NO ").data.head? = some 'n' ∨ (pyStrip " NO ").data.head? = some 'N'))
    ∧ confirm_install { timezone := "UTC", hostname := PyVal.pyStr "arch", users := [] }
        (Partitioning.init "/dev/sda" 0 40960) ["y", ""]
        = ConfirmRes.proceed
            { general := { timezone := "UTC", hostname := PyVal.pyStr "arch", users := [] },
              partitioning := Partitioning.init "/dev/sda" 0 40960,
              post_install := { packages := [], scripts := [] } } [] :=
  ⟨c8_ask_yn_default_yes.2.1 " NO ",
   c8_ask_yn_default_yes.2.2 { timezone := "UTC", hostname := PyVal.pyStr "arch", users := [] }
     (Partitioning.init "/dev/sda" 0 40960) "y" [] rfl⟩

theorem takeWhile_append_all {p : Char → Bool} (d r : List Char)
    (h : ∀ c ∈ d, p c = true) : (d ++ r).takeWhile p = d ++ r.takeWhile p := by
  induction d with
  | nil => simp
  | cons a t ih =>
    have ha : p a = true := h a (List.mem_cons_self a t)
    simp only [List.cons_append, List.takeWhile_cons, ha, if_true]
    rw [ih (fun c hc => h c (List.mem_cons_of_mem a hc))]

theorem dropWhile_append_all {p : Char → Bool} (d r : List Char)
    (h : ∀ c ∈ d, p c = true) : (d ++ r).dropWhile p = r.dropWhile p := by
  induction d with
  | nil => simp
  | cons a t ih =>
    have ha : p a = true := h a (List.mem_cons_self a t)
    simp only [List.cons_append, List.dropWhile_cons, ha, if_true]
    exact ih (fun c hc => h c (List.mem_cons_of_mem a hc))

theorem takeWhile_all_sat {p : Char → Bool} (l : List Char)
    (h : ∀ c ∈ l, p c = true) : l.takeWhile p = l := by
  have := takeWhile_append_all l [] h
  simpa using this

theorem dropWhile_all_sat {p : Char → Bool} (l : List Char)
    (h : ∀ c ∈ l, p c = true) : l.dropWhile p = [] := by
  have := dropWhile_append_all l [] h
  simpa using this

theorem head?_dropWhile_false {p : Char → Bool} :
    ∀ (l : List Char) {c : Char}, (l.dropWhile p).head? = some c → p c = false := by
  intro l
  induction l with
  | nil => intro c h; simp at h
  | cons a t ih =>
    intro c h
    rw [List.dropWhile_cons] at h
    by_cases hp : p a = true
    · rw [if_pos hp] at h
      exact ih h
    · rw [if_neg hp] at h
      simp only [List.head?_cons, Option.some.injEq] at h
      subst h
      simpa using hp

theorem dotSplit_no_dot : ∀ (l : List Char), '.' ∉ l → dotSplit l = (l, none) := by
  intro l
  induction l with
  | nil => intro _; rfl
  | cons a t ih =>
    intro h
    have ha : ¬ a = '.' := fun e => h (e ▸ List.mem_cons_self a t)
    have ht : '.' ∉ t := fun e => h (List.mem_cons_of_mem a e)
    simp [dotSplit, ha, ih ht]

theorem dotSplit_dot (d f : List Char) (h : '.' ∉ d) :
    dotSplit (d ++ '.' :: f) = (d, some f) := by
  induction d with
  | nil => simp [dotSplit]
  | cons a t ih =>
    have ha : ¬ a = '.' := fun e => h (e ▸ List.mem_cons_self a t)
    have ht : '.' ∉ t := fun e => h (List.mem_cons_of_mem a e)
    simp [dotSplit, ha, ih ht]

theorem dotSplit_none_inv : ∀ (l d : List Char), dotSplit l = (d, none) →
    l = d ∧ '.' ∉ d := by
  intro l
  induction l with
  | nil =>
    intro d h
    simp only [dotSplit, Prod.mk.injEq] at h
    obtain ⟨rfl, -⟩ := h
    exact ⟨rfl, by simp⟩
  | cons a t ih =>
    intro d h
    by_cases ha : a = '.'
    · subst ha
      simp [dotSplit] at h
    · simp only [dotSplit, if_neg ha, Prod.mk.injEq] at h
      obtain ⟨h1, h2⟩ := h
      obtain ⟨hteq, hdot⟩ := ih (dotSplit t).1 (by rw [← h2])
      subst h1
      refine ⟨by rw [← hteq], ?_⟩
      intro hm
      rcases List.mem_cons.mp hm with e | e
      · exact ha e.symm
      · exact hdot e

theorem dotSplit_some_inv : ∀ (l d f : List Char), dotSplit l = (d, some f) →
    l = d ++ '.' :: f ∧ '.' ∉ d := by
  intro l
  induction l with
  | nil =>
    intro d f h
    simp only [dotSplit, Prod.mk.injEq] at h
    exact absurd h.2 (by simp)
  | cons a t ih =>
    intro d f h
    by_cases ha : a = '.'
    · subst ha
      have hd : dotSplit ('.' :: t) = ([], some t) := by simp [dotSplit]
      rw [hd, Prod.mk.injEq] at h
      obtain ⟨h1, h2⟩ := h
      subst h1
      obtain rfl := Option.some.inj h2
      exact ⟨rfl, by simp⟩
    · simp only [dotSplit, if_neg ha, Prod.mk.injEq] at h
      obtain ⟨h1, h2⟩ := h
      obtain ⟨hteq, hdot⟩ := ih (dotSplit t).1 f (by rw [← h2])
      subst h1
      constructor
      · rw [List.cons_append, ← hteq]
      · intro hm
        rcases List.mem_cons.mp hm with e | e
        · exact ha e.symm
        · exact hdot e

theorem specNum?_none_case (l d : List Char) (hs : dotSplit l = (d, none)) :
    specNum? l
      = if !d.isEmpty && d.all Char.isDigit then some ((digitsVal d : ℚ)) else none := by
  unfold specNum?
  rw [hs]

theorem specNum?_some_case (l d f : List Char) (hs : dotSplit l = (d, some f)) :
    specNum? l
      = if !d.isEmpty && d.all Char.isDigit && (!f.isEmpty && f.all Char.isDigit)
        then some ((digitsVal d : ℚ) + (digitsVal f : ℚ) / (10 : ℚ) ^ f.length)
        else none := by
  unfold specNum?
  rw [hs]

theorem specNum?_of_shape (core d : List Char) (f : Option (List Char))
    (h : NumShape core d f) : specNum? core = some (numVal d f) := by
  cases f with
  | none =>
    obtain ⟨heq, hne, hdig⟩ := h
    rw [heq]
    have hnd : '.' ∉ d := fun hm => absurd (hdig '.' hm) (by decide)
    have hie : d.isEmpty = false := List.isEmpty_eq_false.mpr hne
    have hall : d.all Char.isDigit = true := List.all_eq_true.mpr (fun c hc => hdig c hc)
    rw [specNum?_none_case d d (dotSplit_no_dot d hnd)]
    simp [hie, hall, numVal]
  | some fr =>
    obtain ⟨heq, hne, hfne, hdig, hfdig⟩ := h
    rw [heq]
    have hnd : '.' ∉ d := fun hm => absurd (hdig '.' hm) (by decide)
    have hie : d.isEmpty = false := List.isEmpty_eq_false.mpr hne
    have hfie : fr.isEmpty = false := List.isEmpty_eq_false.mpr hfne
    have hall : d.all Char.isDigit = true := List.all_eq_true.mpr (fun c hc => hdig c hc)
    have hfall : fr.all Char.isDigit = true := List.all_eq_true.mpr (fun c hc => hfdig c hc)
    rw [specNum?_some_case (d ++ '.' :: fr) d fr (dotSplit_dot d fr hnd)]
    simp [hie, hfie, hall, hfall, numVal]

theorem specNum?_some_inv (l : List Char) (q : ℚ) (h : specNum? l = some q) :
    ∃ d f, NumShape l d f ∧ q = numVal d f := by
  rcases hs : dotSplit l with ⟨d, fo⟩
  cases fo with
  | none =>
    rw [specNum?_none_case l d hs] at h
    split_ifs at h with hc
    · obtain ⟨hl, -⟩ := dotSplit_none_inv l d hs
      rw [Bool.and_eq_true] at hc
      obtain ⟨hc1, hc2⟩ := hc
      refine ⟨d, none, ⟨hl, ?_, fun c hcm => List.all_eq_true.mp hc2 c hcm⟩,
        (Option.some.inj h).symm⟩
      intro e
      subst e
      simp at hc1
  | some fr =>
    rw [specNum?_some_case l d fr hs] at h
    split_ifs at h with hc
    · obtain ⟨hl, -⟩ := dotSplit_some_inv l d fr hs
      rw [Bool.and_eq_true, Bool.and_eq_true, Bool.and_eq_true] at hc
      obtain ⟨⟨hc1, hc2⟩, hc3, hc4⟩ := hc
      refine ⟨d, some fr, ⟨hl, ?_, ?_, fun c hcm => List.all_eq_true.mp hc2 c hcm,
        fun c hcm => List.all_eq_true.mp hc4 c hcm⟩, (Option.some.inj h).symm⟩
      · intro e
        subst e
        simp at hc1
      · intro e
        subst e
        simp at hc3

theorem shape_getLast_digit (t d : List Char) (f : Option (List Char))
    (h : NumShape t d f) : ∃ c, t.getLast? = some c ∧ c.isDigit = true := by
  cases f with
  | none =>
    obtain ⟨heq, hne, hdig⟩ := h
    refine ⟨d.getLast hne, ?_, hdig _ (List.getLast_mem hne)⟩
    rw [heq]
    exact List.getLast?_eq_getLast_of_ne_nil hne
  | some fr =>
    obtain ⟨heq, hne, hfne, hdig, hfdig⟩ := h
    refine ⟨fr.getLast hfne, ?_, hfdig _ (List.getLast_mem hfne)⟩
    rw [heq, List.getLast?_append_cons,
      show ('.' :: fr) = ['.'] ++ fr from rfl, List.getLast?_append_of_ne_nil _ hfne]
    exact List.getLast?_eq_getLast_of_ne_nil hfne

theorem specSizeCore_of_shape (t d : List Char) (f : Option (List Char)) (u : Option Char)
    (h : SizeShape t d f u) :
    specSizeCore t
      = some (if u = some 'G' then ⌊numVal d f * 1024⌋ else ⌊numVal d f⌋) := by
  cases u with
  | some c =>
    obtain ⟨hMG, core, heq, hshape⟩ := h
    rcases hMG with rfl | rfl
    · rw [heq]
      unfold specSizeCore
      rw [List.getLast?_concat, if_neg (by decide), if_pos rfl, List.dropLast_concat,
        specNum?_of_shape core d f hshape]
      rfl
    · rw [heq]
      unfold specSizeCore
      rw [List.getLast?_concat, if_pos rfl, List.dropLast_concat,
        specNum?_of_shape core d f hshape]
      rfl
  | none =>
    obtain ⟨c, hc, hcd⟩ := shape_getLast_digit t d f h
    have hG : ¬ t.getLast? = some 'G' := by
      rw [hc]
      intro e
      exact absurd (Option.some.inj e ▸ hcd) (by decide)
    have hM : ¬ t.getLast? = some 'M' := by
      rw [hc]
      intro e
      exact absurd (Option.some.inj e ▸ hcd) (by decide)
    unfold specSizeCore
    rw [if_neg hG, if_neg hM, specNum?_of_shape t d f h]
    rfl

theorem specSizeCore_some_inv (t : List Char) (v : Int) (h : specSizeCore t = some v) :
    ∃ d f u, SizeShape t d f u
      ∧ v = (if u = some 'G' then ⌊numVal d f * 1024⌋ else ⌊numVal d f⌋) := by
  unfold specSizeCore at h
  split_ifs at h with hG hM
  · split at h
    · rename_i q hq
      obtain ⟨d, f, hshape, rfl⟩ := specNum?_some_inv _ q hq
      refine ⟨d, f, some 'G', ⟨Or.inr rfl, t.dropLast,
        (List.dropLast_append_getLast? 'G' (Option.mem_def.mpr hG)).symm, hshape⟩, ?_⟩
      rw [if_pos rfl]
      exact (Option.some.inj h).symm
    · simp at h
  · split at h
    · rename_i q hq
      obtain ⟨d, f, hshape, rfl⟩ := specNum?_some_inv _ q hq
      refine ⟨d, f, some 'M', ⟨Or.inl rfl, t.dropLast,
        (List.dropLast_append_getLast? 'M' (Option.mem_def.mpr hM)).symm, hshape⟩, ?_⟩
      rw [if_neg (by decide)]
      exact (Option.some.inj h).symm
    · simp at h
  · split at h
    · rename_i q hq
      obtain ⟨d, f, hshape, rfl⟩ := specNum?_some_inv _ q hq
      refine ⟨d, f, none, hshape, ?_⟩
      rw [if_neg (by simp)]
      exact (Option.some.inj h).symm
    · simp at h

theorem sizeMatch_some_inv (l d : List Char) (f : Option (List Char)) (u : Option Char)
    (h : sizeMatch l = some (d, f, u)) : SizeShape l d f u := by
  simp only [sizeMatch] at h
  obtain ⟨d0, hd0⟩ : ∃ x, l.takeWhile Char.isDigit = x := ⟨_, rfl⟩
  obtain ⟨r0, hr0⟩ : ∃ x, l.dropWhile Char.isDigit = x := ⟨_, rfl⟩
  rw [hd0, hr0] at h
  have hl : d0 ++ r0 = l := by
    rw [← hd0, ← hr0]
    exact List.takeWhile_append_dropWhile Char.isDigit l
  have hdig : ∀ c ∈ d0, c.isDigit = true := by
    intro c hc
    rw [← hd0] at hc
    exact List.mem_takeWhile_imp hc
  split_ifs at h with h1 h2 h3 h4 h5 h6 h7 h8 h9
  · rw [Option.some.injEq, Prod.mk.injEq, Prod.mk.injEq] at h
    obtain ⟨rfl, rfl, rfl⟩ := h
    have hne : d0 ≠ [] := fun e => h1 (by simp [e])
    have hleq : l = d0 := by
      rw [h2] at hl
      simpa using hl.symm
    exact ⟨hleq, hne, hdig⟩
  · rw [Option.some.injEq, Prod.mk.injEq, Prod.mk.injEq] at h
    obtain ⟨rfl, rfl, rfl⟩ := h
    have hne : d0 ≠ [] := fun e => h1 (by simp [e])
    have hcore : l = d0 ++ ['M'] := by
      rw [h3] at hl
      exact hl.symm
    exact ⟨Or.inl rfl, d0, hcore, rfl, hne, hdig⟩
  · rw [Option.some.injEq, Prod.mk.injEq, Prod.mk.injEq] at h
    obtain ⟨rfl, rfl, rfl⟩ := h
    have hne : d0 ≠ [] := fun e => h1 (by simp [e])
    have hcore : l = d0 ++ ['G'] := by
      rw [h4] at hl
      exact hl.symm
    exact ⟨Or.inr rfl, d0, hcore, rfl, hne, hdig⟩
  · obtain ⟨r2, rfl⟩ : ∃ r2, r0 = '.' :: r2 := by
      cases hr : r0 with
      | nil => rw [hr] at h5; simp at h5
      | cons a t =>
        rw [hr] at h5
        simp only [List.head?_cons, Option.some.injEq] at h5
        exact ⟨t, by rw [h5]⟩
    simp only [List.tail_cons] at h h6 h7
    rw [Option.some.injEq, Prod.mk.injEq, Prod.mk.injEq] at h
    obtain ⟨rfl, rfl, rfl⟩ := h
    have hne : d0 ≠ [] := fun e => h1 (by simp [e])
    have hfne : r2.takeWhile Char.isDigit ≠ [] := fun e => h6 (by simp [e])
    have hfdig : ∀ c ∈ r2.takeWhile Char.isDigit, c.isDigit = true :=
      fun c hc => List.mem_takeWhile_imp hc
    have hcore : l = d0 ++ '.' :: r2.takeWhile Char.isDigit := by
      have hsp : r2.takeWhile Char.isDigit ++ r2.dropWhile Char.isDigit = r2 :=
        List.takeWhile_append_dropWhile Char.isDigit r2
      rw [h7, List.append_nil] at hsp
      rw [← hl, hsp]
    exact ⟨hcore, hne, hfne, hdig, hfdig⟩
  · obtain ⟨r2, rfl⟩ : ∃ r2, r0 = '.' :: r2 := by
      cases hr : r0 with
      | nil => rw [hr] at h5; simp at h5
      | cons a t =>
        rw [hr] at h5
        simp only [List.head?_cons, Option.some.injEq] at h5
        exact ⟨t, by rw [h5]⟩
    simp only [List.tail_cons] at h h6 h7 h8
    rw [Option.some.injEq, Prod.mk.injEq, Prod.mk.injEq] at h
    obtain ⟨rfl, rfl, rfl⟩ := h
    have hne : d0 ≠ [] := fun e => h1 (by simp [e])
    have hfne : r2.takeWhile Char.isDigit ≠ [] := fun e => h6 (by simp [e])
    have hfdig : ∀ c ∈ r2.takeWhile Char.isDigit, c.isDigit = true :=
      fun c hc => List.mem_takeWhile_imp hc
    have hcore : l = (d0 ++ '.' :: r2.takeWhile Char.isDigit) ++ ['M'] := by
      have hsp : r2.takeWhile Char.isDigit ++ r2.dropWhile Char.isDigit = r2 :=
        List.takeWhile_append_dropWhile Char.isDigit r2
      rw [h8] at hsp
      calc l = d0 ++ '.' :: r2 := hl.symm
        _ = d0 ++ '.' :: (r2.takeWhile Char.isDigit ++ ['M']) := by rw [hsp]
        _ = (d0 ++ '.' :: r2.takeWhile Char.isDigit) ++ ['M'] := by simp
    exact ⟨Or.inl rfl, d0 ++ '.' :: r2.takeWhile Char.isDigit, hcore,
      rfl, hne, hfne, hdig, hfdig⟩
  · obtain ⟨r2, rfl⟩ : ∃ r2, r0 = '.' :: r2 := by
      cases hr : r0 with
      | nil => rw [hr] at h5; simp at h5
      | cons a t =>
        rw [hr] at h5
        simp only [List.head?_cons, Option.some.injEq] at h5
        exact ⟨t, by rw [h5]⟩
    simp only [List.tail_cons] at h h6 h7 h8 h9
    rw [Option.some.injEq, Prod.mk.injEq, Prod.mk.injEq] at h
    obtain ⟨rfl, rfl, rfl⟩ := h
    have hne : d0 ≠ [] := fun e => h1 (by simp [e])
    have hfne : r2.takeWhile Char.isDigit ≠ [] := fun e => h6 (by simp [e])
    have hfdig : ∀ c ∈ r2.takeWhile Char.isDigit, c.isDigit = true :=
      fun c hc => List.mem_takeWhile_imp hc
    have hcore : l = (d0 ++ '.' :: r2.takeWhile Char.isDigit) ++ ['G'] := by
      have hsp : r2.takeWhile Char.isDigit ++ r2.dropWhile Char.isDigit = r2 :=
        List.takeWhile_append_dropWhile Char.isDigit r2
      rw [h9] at hsp
      calc l = d0 ++ '.' :: r2 := hl.symm
        _ = d0 ++ '.' :: (r2.takeWhile Char.isDigit ++ ['G']) := by rw [hsp]
        _ = (d0 ++ '.' :: r2.takeWhile Char.isDigit) ++ ['G'] := by simp
    exact ⟨Or.inr rfl, d0 ++ '.' :: r2.takeWhile Char.isDigit, hcore,
      rfl, hne, hfne, hdig, hfdig⟩

theorem sizeMatch_of_shape (l d : List Char) (f : Option (List Char)) (u : Option Char)
    (h : SizeShape l d f u) : sizeMatch l = some (d, f, u) := by
  cases u with
  | none =>
    cases f with
    | none =>
      obtain ⟨heq, hne, hdig⟩ := h
      subst l
      have ht : d.takeWhile Char.isDigit = d := takeWhile_all_sat d hdig
      have hr : d.dropWhile Char.isDigit = [] := dropWhile_all_sat d hdig
      have hie : d.isEmpty = false := List.isEmpty_eq_false.mpr hne
      simp [sizeMatch, ht, hr, hie]
    | some fr =>
      obtain ⟨heq, hne, hfne, hdig, hfdig⟩ := h
      subst l
      have ht : (d ++ '.' :: fr).takeWhile Char.isDigit = d := by
        rw [takeWhile_append_all d ('.' :: fr) hdig]
        simp [List.takeWhile_cons, (show ('.' : Char).isDigit = false by decide)]
      have hr : (d ++ '.' :: fr).dropWhile Char.isDigit = '.' :: fr := by
        rw [dropWhile_append_all d ('.' :: fr) hdig]
        simp [List.dropWhile_cons, (show ('.' : Char).isDigit = false by decide)]
      have hft : fr.takeWhile Char.isDigit = fr := takeWhile_all_sat fr hfdig
      have hfr : fr.dropWhile Char.isDigit = [] := dropWhile_all_sat fr hfdig
      have hie : d.isEmpty = false := List.isEmpty_eq_false.mpr hne
      have hfie : fr.isEmpty = false := List.isEmpty_eq_false.mpr hfne
      simp [sizeMatch, ht, hr, hft, hfr, hie, hfie,
        (show ('.' : Char) ≠ 'M' by decide), (show ('.' : Char) ≠ 'G' by decide)]
  | some c =>
    obtain ⟨hMG, core, hl, hshape⟩ := h
    subst l
    have hcd : c.isDigit = false := by rcases hMG with rfl | rfl <;> decide
    cases f with
    | none =>
      obtain ⟨heq, hne, hdig⟩ := hshape
      subst core
      have ht : (d ++ [c]).takeWhile Char.isDigit = d := by
        rw [takeWhile_append_all d [c] hdig]
        simp [List.takeWhile_cons, hcd]
      have hr : (d ++ [c]).dropWhile Char.isDigit = [c] := by
        rw [dropWhile_append_all d [c] hdig]
        simp [List.dropWhile_cons, hcd]
      have hie : d.isEmpty = false := List.isEmpty_eq_false.mpr hne
      rcases hMG with rfl | rfl
      · simp [sizeMatch, ht, hr, hie]
      · simp [sizeMatch, ht, hr, hie, (show ('G' : Char) ≠ 'M' by decide)]
    | some fr =>
      obtain ⟨heq, hne, hfne, hdig, hfdig⟩ := hshape
      subst core
      have hl2 : (d ++ '.' :: fr) ++ [c] = d ++ '.' :: (fr ++ [c]) := by simp
      rw [hl2]
      have ht : (d ++ '.' :: (fr ++ [c])).takeWhile Char.isDigit = d := by
        rw [takeWhile_append_all d ('.' :: (fr ++ [c])) hdig]
        simp [List.takeWhile_cons, (show ('.' : Char).isDigit = false by decide)]
      have hr : (d ++ '.' :: (fr ++ [c])).dropWhile Char.isDigit = '.' :: (fr ++ [c]) := by
        rw [dropWhile_append_all d ('.' :: (fr ++ [c])) hdig]
        simp [List.dropWhile_cons, (show ('.' : Char).isDigit = false by decide)]
      have hft : (fr ++ [c]).takeWhile Char.isDigit = fr := by
        rw [takeWhile_append_all fr [c] hfdig]
        simp [List.takeWhile_cons, hcd]
      have hfr : (fr ++ [c]).dropWhile Char.isDigit = [c] := by
        rw [dropWhile_append_all fr [c] hfdig]
        simp [List.dropWhile_cons, hcd]
      have hie : d.isEmpty = false := List.isEmpty_eq_false.mpr hne
      have hfie : fr.isEmpty = false := List.isEmpty_eq_false.mpr hfne
      rcases hMG with rfl | rfl
      · simp [sizeMatch, ht, hr, hft, hfr, hie, hfie,
          (show ('.' : Char) ≠ 'M' by decide), (show ('.' : Char) ≠ 'G' by decide)]
      · simp [sizeMatch, ht, hr, hft, hfr, hie, hfie,
          (show ('.' : Char) ≠ 'M' by decide), (show ('.' : Char) ≠ 'G' by decide),
          (show ('G' : Char) ≠ 'M' by decide)]

theorem sizeValue_eq_specSizeCore (t : List Char) : sizeValue t = specSizeCore t := by
  cases hm : sizeMatch t with
  | some dfu =>
    obtain ⟨d, f, u⟩ := dfu
    have hshape := sizeMatch_some_inv t d f u hm
    rw [specSizeCore_of_shape t d f u hshape]
    unfold sizeValue
    rw [hm]
  | none =>
    cases hs : specSizeCore t with
    | none =>
      unfold sizeValue
      rw [hm]
    | some v =>
      obtain ⟨d, f, u, hshape, rfl⟩ := specSizeCore_some_inv t v hs
      exact absurd (sizeMatch_of_shape t d f u hshape) (by rw [hm]; simp)

/-- Claim C10: the size parser trims whitespace, uppercases, and accepts
exactly the inputs matching `^(\d+(\.\d+)?)([MG]?)$`; an accepted value is
the numeric part times 1024 for unit `G`, else the numeric part, truncated
toward zero; in particular `512 ↦ 512`, `1G ↦ 1024`, `1.5G ↦ 1536`,
`512.9 ↦ 512`, `" 1g " ↦ 1024`, and `abc` is invalid.  The general conjunct
states agreement with the independently written spec-side parser
`specSizeParse` on every input. -/
theorem c10_size_parser_grammar :
    size_filter "512" = PyVal.pyInt 512
    ∧ size_filter "1G" = PyVal.pyInt 1024
    ∧ size_filter "1.5G" = PyVal.pyInt 1536
    ∧ size_filter "512.9" = PyVal.pyInt 512
    ∧ size_filter "abc" = PyVal.pyBool false
    ∧ size_filter " 1g " = PyVal.pyInt 1024
    ∧ (∀ s : String,
        size_filter s = match specSizeParse s with
          | some n => PyVal.pyInt n
          | none => PyVal.pyBool false) := by
  have hG : size_filter "1G" = PyVal.pyInt ⌊(digitsVal ['1'] : ℚ) * 1024⌋ := rfl
  have hG2 : size_filter " 1g " = PyVal.pyInt ⌊(digitsVal ['1'] : ℚ) * 1024⌋ := rfl
  have hG3 : size_filter "1.5G" = PyVal.pyInt
      ⌊((digitsVal ['1'] : ℚ) + (digitsVal ['5'] : ℚ) / (10 : ℚ) ^ (1 : ℕ)) * 1024⌋ := rfl
  have hP : size_filter "512.9" = PyVal.pyInt
      ⌊(digitsVal ['5', '1', '2'] : ℚ) + (digitsVal ['9'] : ℚ) / (10 : ℚ) ^ (1 : ℕ)⌋ := rfl
  refine ⟨rfl, ?_, ?_, ?_, rfl, ?_, ?_⟩
  · rw [hG, show digitsVal ['1'] = 1 from by decide]
    norm_num
  · rw [hG3, show digitsVal ['1'] = 1 from by decide, show digitsVal ['5'] = 5 from by decide]
    norm_num
  · rw [hP, show digitsVal ['5', '1', '2'] = 512 from by decide,
      show digitsVal ['9'] = 9 from by decide]
    norm_num
  · rw [hG2, show digitsVal ['1'] = 1 from by decide]
    norm_num
  · intro s
    unfold size_filter specSizeParse
    rw [sizeValue_eq_specSizeCore]

end ArchInstall
